import Mathlib

/-!
Shallow embedding of the gamification-ledger core of the Habit-B backend
(habit tracking with XP/levels, streaks, badges, a spin-wheel reward engine),
together with proofs checking the natural-language specification against it.

Conventions of the embedding:
* machine numbers are `Nat` (all the quantities involved are non-negative
  integers in the source; JavaScript real division composed with `Math.floor`
  is Nat division, and `Math.floor (Math.sqrt (xp / 100))` is
  `Nat.sqrt (xp / 100)`);
* timestamps are milliseconds since the epoch, calendar days are day numbers
  (`Int` where a "yesterday" subtraction occurs);
* `Math.random()` draws are threaded explicitly as a stream `Nat → ℚ` of
  values in `[0,1)` consumed at an explicit cursor;
* fallible controller operations return `Except`; the Mongo transaction wrapper
  aborts on any thrown error, so the stored state after a failed call is the
  original state (made explicit by the `post...State` functions).
-/

namespace HabitB

/-! ## Leveling (src/models/User.js)

The level formula appearing in the pre-save hook and in
`UserSchema.methods.addXP`:
`potentialLevel = Math.floor(Math.sqrt(this.xp / 100)) + 1`, and the level is
updated to `Math.min(potentialLevel, 100)` whenever `potentialLevel` exceeds
the current level. -/

/-- Evaluation helper for the integer square root. -/
theorem sqrt_eval (a n : Nat) (h1 : a * a ≤ n) (h2 : n < (a + 1) * (a + 1)) :
    Nat.sqrt n = a :=
  (Nat.eq_sqrt.mpr ⟨h1, h2⟩).symm

def potentialLevel (xp : Nat) : Nat :=
  Nat.sqrt (xp / 100) + 1

/-- The pure level-from-XP function of User.js: the potential level capped
at 100. -/
def levelForXP (xp : Nat) : Nat :=
  min (potentialLevel xp) 100

/-- The conditional level update performed by the User.js pre-save hook and by
`addXP`: the stored level only ever moves up, to the capped potential level. -/
def applyLevelHook (xp level : Nat) : Nat :=
  if potentialLevel xp > level then min (potentialLevel xp) 100 else level

/-- The linear level formula used by the habit / game / spin controllers:
`Math.floor(xp / 100) + 1` (uncapped). -/
def linearLevel (xp : Nat) : Nat :=
  xp / 100 + 1

/-! ## User ledger state (subset of src/models/User.js relevant to the claims) -/

structure UserLedger where
  xp : Nat
  totalXP : Nat
  level : Nat
  coins : Nat
  gems : Nat
  badges : List String
  inventoryItems : List String
  lastSpin : Option Nat
  spinCount : Nat
  currentStreak : Nat
  longestStreak : Nat
  completedTasks : Nat
  completedHabits : Nat
  daysActive : Nat
  gamesPlayed : List (String × Nat)
  deriving Repr, DecidableEq

structure AddXPResult where
  xpGained : Nat
  levelUp : Bool
  deriving Repr, DecidableEq

/-- `UserSchema.methods.addXP(amount)`: applies the active boost multiplier
(`gameStats.activeBoosts?.multiplier || 1`, a possibly fractional factor,
floored after multiplication), adds the adjusted amount to `xp` and
`gameStats.totalXP`, conditionally raises the level to the capped potential
level, saves (which re-runs the level hook on the already-updated fields), and
reports `levelUp` by comparing the potential level against the level field
it has just updated. -/
def addXP (u : UserLedger) (amount : Nat) (multiplier : ℚ) : UserLedger × AddXPResult :=
  let adjusted : Nat := Int.toNat ⌊(amount : ℚ) * multiplier⌋
  let xp2 := u.xp + adjusted
  let p := potentialLevel xp2
  let level2 := if p > u.level then min p 100 else u.level
  let level3 := applyLevelHook xp2 level2
  ({ u with xp := xp2, totalXP := u.totalXP + adjusted, level := level3 },
   { xpGained := adjusted, levelUp := decide (p > level3) })

/-! ## Spin wheel (src/controllers/spinWheelController.js) -/

inductive RewardComponent
  | xp (lo hi : Nat)
  | coins (lo hi : Nat)
  | item (itemId : String)
  | badge (badgeId : String)
  deriving Repr, DecidableEq

structure RewardTier where
  name : String
  weight : Nat
  rewards : List RewardComponent
  deriving Repr, DecidableEq

/-- The `REWARD_TIERS` configuration table of spinWheelController.js. -/
def REWARD_TIERS : List RewardTier :=
  [ ⟨"Common", 60, [.xp 10 30, .coins 5 15]⟩,
    ⟨"Uncommon", 25, [.xp 30 60, .coins 15 30, .item "common_boost"]⟩,
    ⟨"Rare", 10, [.xp 60 100, .coins 30 50, .item "rare_boost"]⟩,
    ⟨"Epic", 4, [.xp 100 200, .coins 50 100, .item "epic_boost"]⟩,
    ⟨"Legendary", 1,
      [.xp 200 500, .coins 100 200, .item "legendary_boost", .badge "wheel_legend"]⟩ ]

/-- `REWARD_TIERS.reduce((sum, tier) => sum + tier.weight, 0)`. -/
def totalWeight (table : List RewardTier) : Nat :=
  table.foldl (fun s t => s + t.weight) 0

/-- The loop of `selectRewardTier`: walk the tiers in order; return the first
tier whose weight exceeds the remaining draw, subtracting each passed weight
from the draw. `none` corresponds to falling off the loop. -/
def selectTierGo : ℚ → List RewardTier → Option RewardTier
  | _, [] => none
  | r, t :: ts => if r < (t.weight : ℚ) then some t else selectTierGo (r - (t.weight : ℚ)) ts

def defaultTier : RewardTier := ⟨"", 0, []⟩

/-- `selectRewardTier()`, with the draw `r = Math.random() * totalWeight`
passed explicitly; the fallback `return REWARD_TIERS[0]` is the head of the
table. -/
def selectRewardTier (table : List RewardTier) (r : ℚ) : RewardTier :=
  (selectTierGo r table).getD (table.headD defaultTier)

/-- Sum of the weights of the first `i` tiers. -/
def prefixWeight : List RewardTier → Nat → Nat
  | _, 0 => 0
  | [], _ + 1 => 0
  | t :: ts, i + 1 => t.weight + prefixWeight ts i

/-- `Math.floor` of a non-negative rational, as a natural number. -/
def floorQ (q : ℚ) : Nat := Int.toNat ⌊q⌋

/-- `getRandomInRange(min, max) = Math.floor(Math.random() * (max - min + 1)) + min`,
with the uniform draw `d` in `[0,1)` passed explicitly. -/
def getRandomInRange (d : ℚ) (lo hi : Nat) : Nat :=
  floorQ (d * ((hi - lo + 1 : Nat) : ℚ)) + lo

/-- A component counts as primary when its type is xp or coins. -/
def isPrimary : RewardComponent → Bool
  | .xp _ _ => true
  | .coins _ _ => true
  | .item _ => false
  | .badge _ => false

def defaultComponent : RewardComponent := .xp 0 0

/-- `selectRandomReward(tier)`: always pick one primary component (uniform
index draw over the primaries), then include each non-primary component
independently when its draw is below 0.3. `Math.random()` draws are the
stream `rng` consumed from cursor `k`; the cursor advances exactly where the
source calls `Math.random()` (the short-circuit in the JS condition consults
the draw only for non-primary components). Returns the chosen components and
the advanced cursor. -/
def selectRandomReward (tier : RewardTier) (rng : Nat → ℚ) (k : Nat) :
    List RewardComponent × Nat :=
  let primary := tier.rewards.filter isPrimary
  let init : List RewardComponent × Nat :=
    if 0 < primary.length then
      ([primary.getD (floorQ (rng k * (primary.length : ℚ))) defaultComponent], k + 1)
    else ([], k)
  tier.rewards.foldl
    (fun acc c =>
      if isPrimary c then acc
      else if rng acc.2 < 3 / 10 then (acc.1 ++ [c], acc.2 + 1)
      else (acc.1, acc.2 + 1))
    init

inductive SpinError
  | cooldownActive
  | itemNotFound
  deriving Repr, DecidableEq

/-- The update object built by the reward loop of `spinWheel`. Each field is a
single slot because the JS code merges with object spread under a fixed key
(`{...updates.$inc, xp: amt}` and likewise for `$push` / `$addToSet`), so a
repeated component type overwrites the slot rather than accumulating; the
`xpInc` slot feeds both the `xp` and `gameStats.totalXP` increments. -/
structure SpinUpdates where
  xpInc : Option Nat
  coinInc : Option Nat
  itemPush : Option String
  badgeAdd : Option String
  deriving Repr, DecidableEq

/-- The `for (const component of reward)` loop of `spinWheel`: draws reward
magnitudes, records item pushes (failing when the inventory item does not
exist) and badge adds. -/
def applyComponents (itemExists : String → Bool) (rng : Nat → ℚ) :
    List RewardComponent → SpinUpdates × Nat → Except SpinError (SpinUpdates × Nat)
  | [], acc => .ok acc
  | c :: cs, (upd, k) =>
    match c with
    | .xp lo hi =>
        applyComponents itemExists rng cs
          ({ upd with xpInc := some (getRandomInRange (rng k) lo hi) }, k + 1)
    | .coins lo hi =>
        applyComponents itemExists rng cs
          ({ upd with coinInc := some (getRandomInRange (rng k) lo hi) }, k + 1)
    | .item itemId =>
        if itemExists itemId then
          applyComponents itemExists rng cs ({ upd with itemPush := some itemId }, k)
        else .error .itemNotFound
    | .badge badgeId =>
        applyComponents itemExists rng cs ({ upd with badgeAdd := some badgeId }, k)

/-- Mongo `$addToSet`: append unless already present. -/
def addToSet (xs : List String) (x : String) : List String :=
  if x ∈ xs then xs else xs ++ [x]

structure SpinOutcome where
  tierName : String
  levelUp : Option Nat
  deriving Repr, DecidableEq

/-- `24 * 60 * 60 * 1000` milliseconds. The source check
`(Date.now() - lastSpin) / 3600000 < 24` is exactly `now < lastSpin + 86400000`
over the reals. -/
def COOLDOWN_MS : Nat := 86400000

/-- The `spinWheel` controller operation: cooldown check against
`user.gameStats.lastSpin || new Date(0)`, weighted tier selection, reward
materialization, then atomic application of the collected update object plus
the `logSpinActivity` spin-counter increment, with the linear level-up check
`Math.floor((user.xp + inc.xp) / 100) + 1 > user.level`. Run inside a
transaction: any error aborts and leaves the stored user unchanged. -/
def spinWheel (u : UserLedger) (now : Nat) (itemExists : String → Bool)
    (rng : Nat → ℚ) : Except SpinError (UserLedger × SpinOutcome) :=
  if now < u.lastSpin.getD 0 + COOLDOWN_MS then
    .error .cooldownActive
  else
    let tier := selectRewardTier REWARD_TIERS (rng 0 * (totalWeight REWARD_TIERS : ℚ))
    let sel := selectRandomReward tier rng 1
    match applyComponents itemExists rng sel.1 (⟨none, none, none, none⟩, sel.2) with
    | .error e => .error e
    | .ok (upd, _) =>
      let xpInc := upd.xpInc.getD 0
      let newLevel := linearLevel (u.xp + xpInc)
      .ok ({ u with
              xp := u.xp + xpInc,
              totalXP := u.totalXP + xpInc,
              coins := u.coins + upd.coinInc.getD 0,
              inventoryItems := u.inventoryItems ++ upd.itemPush.toList,
              badges := match upd.badgeAdd with
                        | none => u.badges
                        | some b => addToSet u.badges b,
              lastSpin := some now,
              level := if newLevel > u.level then newLevel else u.level,
              spinCount := u.spinCount + 1 },
            { tierName := tier.name,
              levelUp := if newLevel > u.level then some newLevel else none })

/-- The stored user state after a `spinWheel` request: the transaction commits
the new state on success and aborts (leaving the original state) on error. -/
def postSpinState (u : UserLedger) (now : Nat) (itemExists : String → Bool)
    (rng : Nat → ℚ) : UserLedger :=
  match spinWheel u now itemExists rng with
  | .ok (s, _) => s
  | .error _ => u

end HabitB

namespace HabitB

/-- `C4`: for every non-negative integer `xp`, the User.js level equals the
capped quadratic value `min (⌊√(xp/100)⌋ + 1) 100` — witnessed by the defining
property of the integer square root of `xp / 100`: it is the greatest `k` with
`100·k² ≤ xp` — it is at least 1, it is monotone in `xp`, and it maps 0 to
level 1, 100 to level 2 and 400 to level 3. -/
theorem levelForXP_spec :
    ∀ xp : Nat,
      levelForXP xp = min (Nat.sqrt (xp / 100) + 1) 100 ∧
      100 * (Nat.sqrt (xp / 100)) ^ 2 ≤ xp ∧
      (∀ k : Nat, 100 * k ^ 2 ≤ xp → k ≤ Nat.sqrt (xp / 100)) ∧
      1 ≤ levelForXP xp ∧
      (∀ y : Nat, xp ≤ y → levelForXP xp ≤ levelForXP y) ∧
      levelForXP 0 = 1 ∧ levelForXP 100 = 2 ∧ levelForXP 400 = 3 := by
  have h400 : Nat.sqrt (400 / 100) = 2 := sqrt_eval 2 (400 / 100) (by decide) (by decide)
  intro xp
  refine ⟨rfl, ?_, ?_, ?_, ?_, by simp [levelForXP, potentialLevel],
    by simp [levelForXP, potentialLevel], by simp [levelForXP, potentialLevel, h400]⟩
  · have h1 : Nat.sqrt (xp / 100) ^ 2 ≤ xp / 100 := by
      simpa [pow_two] using Nat.sqrt_le (xp / 100)
    calc 100 * Nat.sqrt (xp / 100) ^ 2 ≤ 100 * (xp / 100) :=
          Nat.mul_le_mul_left _ h1
      _ ≤ xp := Nat.mul_div_le xp 100
  · intro k hk
    have hdiv : k ^ 2 ≤ xp / 100 := by
      rw [Nat.le_div_iff_mul_le (by norm_num : 0 < 100)]
      calc k ^ 2 * 100 = 100 * k ^ 2 := by ring
        _ ≤ xp := hk
    have := Nat.sqrt_le_sqrt hdiv
    calc k = Nat.sqrt (k ^ 2) := by
          rw [pow_two, Nat.sqrt_eq]
      _ ≤ Nat.sqrt (xp / 100) := this
  · have : 1 ≤ potentialLevel xp := Nat.le_add_left 1 _
    exact le_min this (by norm_num)
  · intro y hxy
    have hs : Nat.sqrt (xp / 100) ≤ Nat.sqrt (y / 100) :=
      Nat.sqrt_le_sqrt (Nat.div_le_div_right hxy)
    exact min_le_min (Nat.succ_le_succ hs) le_rfl

/-- Witness for `levelForXP_spec`, discharging its inner quantified hypotheses
at `xp = 250`, `k = 1`, `y = 900`. -/
theorem levelForXP_spec_witness :
    100 * 1 ^ 2 ≤ 250 ∧ (1 : Nat) ≤ Nat.sqrt (250 / 100) ∧
      (250 : Nat) ≤ 900 ∧ levelForXP 250 ≤ levelForXP 900 :=
  ⟨by decide, (levelForXP_spec 250).2.2.1 1 (by decide),
   by decide, (levelForXP_spec 250).2.2.2.2.1 900 (by decide)⟩

/-- `C10`: `addXP` reports `levelUp = true` only when the potential level
strictly exceeds the level cap of 100, because the flag is computed against the
already-updated level field; every ordinary level-up landing at a level of at
most 100 yields `levelUp = false`. -/
theorem addXP_levelUp_only_beyond_cap (u : UserLedger) (amount : Nat) (multiplier : ℚ) :
    ((addXP u amount multiplier).2.levelUp = true →
      100 < potentialLevel (addXP u amount multiplier).1.xp) ∧
    (potentialLevel (addXP u amount multiplier).1.xp ≤ 100 →
      (addXP u amount multiplier).2.levelUp = false) := by
  have hxp : (addXP u amount multiplier).1.xp
      = u.xp + Int.toNat ⌊(amount : ℚ) * multiplier⌋ := rfl
  have hflag : (addXP u amount multiplier).2.levelUp
      = decide (potentialLevel (u.xp + Int.toNat ⌊(amount : ℚ) * multiplier⌋) >
          applyLevelHook (u.xp + Int.toNat ⌊(amount : ℚ) * multiplier⌋)
            (if potentialLevel (u.xp + Int.toNat ⌊(amount : ℚ) * multiplier⌋) > u.level
             then min (potentialLevel (u.xp + Int.toNat ⌊(amount : ℚ) * multiplier⌋)) 100
             else u.level)) := rfl
  rw [hxp, hflag]
  unfold applyLevelHook
  set p := potentialLevel (u.xp + Int.toNat ⌊(amount : ℚ) * multiplier⌋) with hp
  constructor
  · intro h
    rw [decide_eq_true_eq] at h
    split_ifs at h <;> omega
  · intro hle
    rw [decide_eq_false_iff_not]
    intro h
    split_ifs at h <;> omega

/-- Witness for `addXP_levelUp_only_beyond_cap`: a user going from 0 XP to
150 XP does level up from 1 to 2, yet the returned flag is `false`. -/
theorem addXP_levelUp_only_beyond_cap_witness :
    (addXP { xp := 0, totalXP := 0, level := 1, coins := 0, gems := 0,
             badges := [], inventoryItems := [], lastSpin := none, spinCount := 0,
             currentStreak := 0, longestStreak := 0, completedTasks := 0,
             completedHabits := 0, daysActive := 0, gamesPlayed := [] }
           150 1).2.levelUp = false := by
  apply (addXP_levelUp_only_beyond_cap _ 150 1).2
  have h : Int.toNat ⌊(150 : ℚ) * 1⌋ = 150 := by norm_num; rfl
  show potentialLevel (0 + Int.toNat ⌊(150 : ℚ) * 1⌋) ≤ 100
  rw [h]
  have hs : Nat.sqrt (150 / 100) = 1 := sqrt_eval 1 (150 / 100) (by decide) (by decide)
  simp [potentialLevel, hs]

end HabitB

namespace HabitB

/-! ## Weighted tier selection: interval characterization -/

/-- The selection walk returns the tier whose cumulative-weight interval
contains the draw. -/
theorem selectTierGo_eq :
    ∀ (table : List RewardTier) (r : ℚ) (i : Nat) (hi : i < table.length),
      (prefixWeight table i : ℚ) ≤ r →
      r < prefixWeight table i + ((table.get ⟨i, hi⟩).weight : ℚ) →
      selectTierGo r table = some (table.get ⟨i, hi⟩) := by
  intro table
  induction table with
  | nil =>
    intro r i hi
    simp at hi
  | cons t ts ih =>
    intro r i hi hlo hhi
    cases i with
    | zero =>
      have hpw : prefixWeight (t :: ts) 0 = 0 := rfl
      rw [hpw] at hhi
      push_cast at hhi
      have hget : (t :: ts).get ⟨0, hi⟩ = t := rfl
      rw [hget] at hhi ⊢
      simp only [selectTierGo]
      rw [if_pos (by linarith)]
    | succ j =>
      have hj : j < ts.length := Nat.lt_of_succ_lt_succ hi
      have hpw : prefixWeight (t :: ts) (j + 1) = t.weight + prefixWeight ts j := rfl
      rw [hpw] at hlo hhi
      push_cast at hlo hhi
      have hge : (t.weight : ℚ) ≤ r := by
        have : (0 : ℚ) ≤ (prefixWeight ts j : ℚ) := Nat.cast_nonneg _
        linarith
      have hget : (t :: ts).get ⟨j + 1, hi⟩ = ts.get ⟨j, hj⟩ := rfl
      rw [hget] at hhi ⊢
      simp only [selectTierGo]
      rw [if_neg (not_lt.mpr hge)]
      apply ih (r - t.weight) j hj
      · push_cast
        linarith
      · push_cast
        linarith

/-- Cumulative weights are monotone: an earlier interval ends no later than a
later interval begins. -/
theorem prefixWeight_interval_le :
    ∀ (table : List RewardTier) (i j : Nat) (hi : i < table.length),
      i < j →
      prefixWeight table i + (table.get ⟨i, hi⟩).weight ≤ prefixWeight table j := by
  intro table
  induction table with
  | nil =>
    intro i j hi
    simp at hi
  | cons t ts ih =>
    intro i j hi hij
    cases i with
    | zero =>
      cases j with
      | zero => omega
      | succ k =>
        have hget : (t :: ts).get ⟨0, hi⟩ = t := rfl
        have h0 : prefixWeight (t :: ts) 0 = 0 := rfl
        have hk : prefixWeight (t :: ts) (k + 1) = t.weight + prefixWeight ts k := rfl
        rw [hget, h0, hk]
        omega
    | succ i2 =>
      cases j with
      | zero => omega
      | succ k =>
        have hi2 : i2 < ts.length := Nat.lt_of_succ_lt_succ hi
        have hik : i2 < k := Nat.lt_of_succ_lt_succ hij
        have hget : (t :: ts).get ⟨i2 + 1, hi⟩ = ts.get ⟨i2, hi2⟩ := rfl
        have ha : prefixWeight (t :: ts) (i2 + 1) = t.weight + prefixWeight ts i2 := rfl
        have hb : prefixWeight (t :: ts) (k + 1) = t.weight + prefixWeight ts k := rfl
        rw [hget, ha, hb]
        have := ih i2 k hi2 hik
        omega

/-- `C8`: for a tier table with positive weights and a draw `r` lying in the
cumulative-weight interval of tier `i` (from the sum of the weights of the
tiers before `i`, inclusive, to that sum plus the weight of tier `i`,
exclusive), `selectRewardTier` returns exactly tier `i`, and `i` is the unique
index whose interval contains `r`. -/
theorem selectRewardTier_interval (table : List RewardTier) (r : ℚ) (i : Nat)
    (hi : i < table.length) (hpos : ∀ t ∈ table, 0 < t.weight)
    (hlo : (prefixWeight table i : ℚ) ≤ r)
    (hhi : r < prefixWeight table i + ((table.get ⟨i, hi⟩).weight : ℚ)) :
    selectRewardTier table r = table.get ⟨i, hi⟩ ∧
    ∀ j, ∀ hj : j < table.length,
      (prefixWeight table j : ℚ) ≤ r →
      r < prefixWeight table j + ((table.get ⟨j, hj⟩).weight : ℚ) → j = i := by
  have disj : ∀ a b (ha : a < table.length), a < b →
      (prefixWeight table b : ℚ) ≤ r →
      r < prefixWeight table a + ((table.get ⟨a, ha⟩).weight : ℚ) → False := by
    intro a b ha hab hlo2 hhi2
    have h := prefixWeight_interval_le table a b ha hab
    have hc : ((prefixWeight table a + (table.get ⟨a, ha⟩).weight : Nat) : ℚ)
        ≤ ((prefixWeight table b : Nat) : ℚ) := by
      exact_mod_cast h
    push_cast at hc
    linarith
  constructor
  · have hgo := selectTierGo_eq table r i hi hlo hhi
    unfold selectRewardTier
    rw [hgo]
    rfl
  · intro j hj hlo2 hhi2
    rcases lt_trichotomy j i with h | h | h
    · exact absurd (disj j i hj h hlo hhi2) (fun hfalse => hfalse)
    · exact h
    · exact absurd (disj i j hi h hlo2 hhi) (fun hfalse => hfalse)

/-- Witness for `selectRewardTier_interval`: the draw 70 lies in the
Uncommon interval `[60, 85)` of the configured table and selects Uncommon. -/
theorem selectRewardTier_interval_witness :
    (∀ t ∈ REWARD_TIERS, 0 < t.weight) ∧
    ((prefixWeight REWARD_TIERS 1 : ℚ) ≤ 70) ∧
    ((70 : ℚ) < prefixWeight REWARD_TIERS 1 +
      ((REWARD_TIERS.get ⟨1, by decide⟩).weight : ℚ)) ∧
    selectRewardTier REWARD_TIERS 70 =
      ⟨"Uncommon", 25, [.xp 30 60, .coins 15 30, .item "common_boost"]⟩ := by
  have h1 : (1 : Nat) < REWARD_TIERS.length := by decide
  have hpos : ∀ t ∈ REWARD_TIERS, 0 < t.weight := by decide
  have hpw : prefixWeight REWARD_TIERS 1 = 60 := rfl
  have hw : (REWARD_TIERS.get ⟨1, h1⟩).weight = 25 := rfl
  have hlo : (prefixWeight REWARD_TIERS 1 : ℚ) ≤ 70 := by
    rw [hpw]; norm_num
  have hhi : (70 : ℚ) < prefixWeight REWARD_TIERS 1 +
      ((REWARD_TIERS.get ⟨1, h1⟩).weight : ℚ) := by
    rw [hpw, hw]; norm_num
  refine ⟨hpos, hlo, hhi, ?_⟩
  have hsel := (selectRewardTier_interval REWARD_TIERS 70 1 h1 hpos hlo hhi).1
  rw [hsel]
  rfl

end HabitB

namespace HabitB

/-- A baseline ledger used by concrete witnesses. -/
def baseUser : UserLedger :=
  { xp := 0, totalXP := 0, level := 1, coins := 0, gems := 0, badges := [],
    inventoryItems := [], lastSpin := none, spinCount := 0, currentStreak := 0,
    longestStreak := 0, completedTasks := 0, completedHabits := 0,
    daysActive := 0, gamesPlayed := [] }

/-- The reward loop never fails when every referenced inventory item exists. -/
theorem applyComponents_ok (itemExists : String → Bool) (rng : Nat → ℚ)
    (hitems : ∀ s, itemExists s = true) :
    ∀ (cs : List RewardComponent) (acc : SpinUpdates × Nat),
      ∃ res, applyComponents itemExists rng cs acc = .ok res := by
  intro cs
  induction cs with
  | nil =>
    intro acc
    exact ⟨acc, rfl⟩
  | cons c cs ih =>
    intro acc
    obtain ⟨upd, k⟩ := acc
    cases c with
    | xp lo hi => exact ih _
    | coins lo hi => exact ih _
    | item itemId =>
      have hcase : applyComponents itemExists rng (RewardComponent.item itemId :: cs) (upd, k)
          = applyComponents itemExists rng cs ({ upd with itemPush := some itemId }, k) := by
        simp only [applyComponents, hitems itemId]
        rfl
      rw [hcase]
      exact ih _
    | badge badgeId => exact ih _

/-- `C1`: a spin within 24 hours of the recorded `lastSpin` fails with the
cooldown condition and mutates nothing — the stored ledger after the aborted
transaction is the original one; once at least 24 hours have elapsed since
`lastSpin` (in particular always when no spin was ever recorded and the
current time is past the first day of the epoch), the spin proceeds. -/
theorem spinWheel_cooldown (u : UserLedger) (now : Nat) (itemExists : String → Bool)
    (rng : Nat → ℚ) :
    (now < u.lastSpin.getD 0 + COOLDOWN_MS →
      spinWheel u now itemExists rng = .error .cooldownActive ∧
      postSpinState u now itemExists rng = u) ∧
    (u.lastSpin.getD 0 + COOLDOWN_MS ≤ now → (∀ s, itemExists s = true) →
      ∃ s o, spinWheel u now itemExists rng = .ok (s, o)) := by
  constructor
  · intro h
    have he : spinWheel u now itemExists rng = .error .cooldownActive := by
      unfold spinWheel
      rw [if_pos h]
    refine ⟨he, ?_⟩
    unfold postSpinState
    rw [he]
  · intro h hitems
    obtain ⟨res, hres⟩ := applyComponents_ok itemExists rng hitems
      (selectRandomReward
        (selectRewardTier REWARD_TIERS (rng 0 * (totalWeight REWARD_TIERS : ℚ))) rng 1).1
      (⟨none, none, none, none⟩,
       (selectRandomReward
        (selectRewardTier REWARD_TIERS (rng 0 * (totalWeight REWARD_TIERS : ℚ))) rng 1).2)
    obtain ⟨upd, k⟩ := res
    unfold spinWheel
    rw [if_neg (not_lt.mpr h)]
    simp only [hres]
    exact ⟨_, _, rfl⟩

/-- Witness for `spinWheel_cooldown`: a user who spun at the epoch and retries
one second later is rejected with no state change; a user who never spun is
served at a current time past the first day. -/
theorem spinWheel_cooldown_witness :
    (1000 < ({ baseUser with lastSpin := some 0 } : UserLedger).lastSpin.getD 0 + COOLDOWN_MS) ∧
    spinWheel { baseUser with lastSpin := some 0 } 1000 (fun _ => true) (fun _ => 0)
      = .error .cooldownActive ∧
    postSpinState { baseUser with lastSpin := some 0 } 1000 (fun _ => true) (fun _ => 0)
      = { baseUser with lastSpin := some 0 } ∧
    (baseUser.lastSpin.getD 0 + COOLDOWN_MS ≤ 200000000) ∧
    ∃ s o, spinWheel baseUser 200000000 (fun _ => true) (fun _ => 0) = .ok (s, o) := by
  have hcool := (spinWheel_cooldown { baseUser with lastSpin := some 0 } 1000
    (fun _ => true) (fun _ => 0)).1 (by decide)
  have hok := (spinWheel_cooldown baseUser 200000000
    (fun _ => true) (fun _ => 0)).2 (by decide) (fun _ => rfl)
  exact ⟨by decide, hcool.1, hcool.2, by decide, hok⟩

end HabitB

namespace HabitB

/-! ## Badges (src/models/Badge.js, src/controllers/badgeController.js) -/

structure BadgeCriteria where
  metric : String
  threshold : Nat
  gameSpecific : Option String
  deriving Repr, DecidableEq

structure Badge where
  id : String
  criteria : BadgeCriteria
  xpReward : Nat
  coinReward : Nat
  purchasable : Bool
  price : Nat
  availableUntil : Option Nat
  isActive : Bool
  deriving Repr, DecidableEq

/-- The `isAvailable` virtual of Badge.js:
`this.isActive && (!this.availableUntil || now <= this.availableUntil)`. -/
def Badge.isAvailable (b : Badge) (now : Nat) : Bool :=
  b.isActive &&
    (match b.availableUntil with
     | none => true
     | some t => decide (now ≤ t))

/-- The metric switch of `checkAndAwardBadges`: read the progress value named
by `badge.criteria.metric` from the `gameStats` snapshot; `gamesPlayed` looks
up the play count under the badge `gameSpecific` key (0 when the key or the
entry is absent); any other metric falls to the default branch, value 0. -/
def metricValue (u : UserLedger) (b : Badge) : Nat :=
  match b.criteria.metric with
  | "streak" => u.currentStreak
  | "totalXP" => u.totalXP
  | "completedTasks" => u.completedTasks
  | "completedHabits" => u.completedHabits
  | "gamesPlayed" =>
    match b.criteria.gameSpecific with
    | some g => (List.lookup g u.gamesPlayed).getD 0
    | none => 0
  | "daysActive" => u.daysActive
  | _ => 0

/-- The `for (const badge of potentialBadges)` loop of `checkAndAwardBadges`:
for each candidate whose metric value reaches its threshold, push its id onto
the held list, collect it as newly earned, and accumulate its rewards. -/
def awardLoop (stats : UserLedger) :
    List Badge → List String × List Badge × Nat × Nat → List String × List Badge × Nat × Nat
  | [], acc => acc
  | b :: bs, (held, earned, xr, cr) =>
    if b.criteria.threshold ≤ metricValue stats b then
      awardLoop stats bs (held ++ [b.id], earned ++ [b], xr + b.xpReward, cr + b.coinReward)
    else
      awardLoop stats bs (held, earned, xr, cr)

/-- `checkAndAwardBadges`: candidates are the active badges not yet held
(the `$nin` / `isActive: true` query); the loop awards every qualifying one;
when at least one was earned the rewards are applied and the user saved
(re-running the quadratic level hook), otherwise the transaction is aborted
and the user is unchanged. Returns the stored user and the newly earned
badges. -/
def checkAndAwardBadges (u : UserLedger) (allBadges : List Badge) :
    UserLedger × List Badge :=
  let potential := allBadges.filter (fun b => !(u.badges.contains b.id) && b.isActive)
  let res := awardLoop u potential (u.badges, [], 0, 0)
  if 0 < res.2.1.length then
    ({ u with badges := res.1,
              totalXP := u.totalXP + res.2.2.1,
              xp := u.xp + res.2.2.1,
              coins := u.coins + res.2.2.2,
              level := applyLevelHook (u.xp + res.2.2.1) u.level },
     res.2.1)
  else
    (u, [])

inductive PurchaseError
  | notAvailable
  | alreadyOwned
  | insufficientCoins
  deriving Repr, DecidableEq

/-- `purchaseBadge`: rejects when the badge is unavailable or not purchasable,
when the user already holds it, or when coins are short of the price; on
success debits exactly the price and appends the badge reference. -/
def purchaseBadge (b : Badge) (u : UserLedger) (now : Nat) :
    Except PurchaseError UserLedger :=
  if ¬ (b.isAvailable now && b.purchasable) then .error .notAvailable
  else if b.id ∈ u.badges then .error .alreadyOwned
  else if u.coins < b.price then .error .insufficientCoins
  else .ok { u with coins := u.coins - b.price, badges := u.badges ++ [b.id] }

/-- The stored user after a `purchaseBadge` request: errors abort the
transaction, leaving the original state. -/
def postPurchaseState (b : Badge) (u : UserLedger) (now : Nat) : UserLedger :=
  match purchaseBadge b u now with
  | .ok s => s
  | .error _ => u

end HabitB

namespace HabitB

/-- A concrete purchasable badge used by witnesses. -/
def shopBadge : Badge :=
  { id := "gold", criteria := { metric := "streak", threshold := 1, gameSpecific := none },
    xpReward := 0, coinReward := 0, purchasable := true, price := 5,
    availableUntil := none, isActive := true }

/-- `C5`: for a purchasable, available badge, purchase fails with the
already-owned error when the badge is held (state unchanged), fails with the
insufficient-funds error when coins are short of the price (state, in
particular coins, unchanged), and otherwise succeeds, debiting exactly the
price and appending exactly that badge reference. -/
theorem purchaseBadge_spec (b : Badge) (u : UserLedger) (now : Nat)
    (hava : b.isAvailable now = true) (hpur : b.purchasable = true) :
    (b.id ∈ u.badges →
      purchaseBadge b u now = .error .alreadyOwned ∧ postPurchaseState b u now = u) ∧
    (b.id ∉ u.badges → u.coins < b.price →
      purchaseBadge b u now = .error .insufficientCoins ∧ postPurchaseState b u now = u) ∧
    (b.id ∉ u.badges → b.price ≤ u.coins →
      purchaseBadge b u now
        = .ok { u with coins := u.coins - b.price, badges := u.badges ++ [b.id] }) := by
  have hcond : ¬ ¬ ((b.isAvailable now && b.purchasable) = true) := by
    simp [hava, hpur]
  refine ⟨?_, ?_, ?_⟩
  · intro hmem
    have he : purchaseBadge b u now = .error .alreadyOwned := by
      unfold purchaseBadge
      rw [if_neg hcond, if_pos hmem]
    refine ⟨he, ?_⟩
    unfold postPurchaseState
    rw [he]
  · intro hnot hlt
    have he : purchaseBadge b u now = .error .insufficientCoins := by
      unfold purchaseBadge
      rw [if_neg hcond, if_neg hnot, if_pos hlt]
    refine ⟨he, ?_⟩
    unfold postPurchaseState
    rw [he]
  · intro hnot hge
    unfold purchaseBadge
    rw [if_neg hcond, if_neg hnot, if_neg (not_lt.mpr hge)]

/-- Witness for `purchaseBadge_spec` on the three branches: already owned,
short of coins, and a successful debit-and-append. -/
theorem purchaseBadge_spec_witness :
    purchaseBadge shopBadge { baseUser with coins := 10, badges := ["gold"] } 0
      = .error .alreadyOwned ∧
    postPurchaseState shopBadge { baseUser with coins := 10, badges := ["gold"] } 0
      = { baseUser with coins := 10, badges := ["gold"] } ∧
    purchaseBadge shopBadge { baseUser with coins := 3 } 0
      = .error .insufficientCoins ∧
    postPurchaseState shopBadge { baseUser with coins := 3 } 0
      = { baseUser with coins := 3 } ∧
    purchaseBadge shopBadge { baseUser with coins := 10 } 0
      = .ok { ({ baseUser with coins := 10 } : UserLedger) with
              coins := ({ baseUser with coins := 10 } : UserLedger).coins - shopBadge.price,
              badges := ({ baseUser with coins := 10 } : UserLedger).badges ++ [shopBadge.id] } := by
  have h1 := (purchaseBadge_spec shopBadge { baseUser with coins := 10, badges := ["gold"] } 0
    (by decide) (by decide)).1 (by decide)
  have h2 := (purchaseBadge_spec shopBadge { baseUser with coins := 3 } 0
    (by decide) (by decide)).2.1 (by decide) (by decide)
  have h3 := (purchaseBadge_spec shopBadge { baseUser with coins := 10 } 0
    (by decide) (by decide)).2.2 (by decide) (by decide)
  exact ⟨h1.1, h1.2, h2.1, h2.2, h3⟩

/-! ## Badge qualification characterization -/

/-- The award loop collects exactly the candidates whose metric value reaches
their threshold. -/
theorem awardLoop_earned (stats : UserLedger) :
    ∀ (cands : List Badge) (held : List String) (earned : List Badge) (xr cr : Nat),
      (awardLoop stats cands (held, earned, xr, cr)).2.1
        = earned ++ cands.filter (fun b => b.criteria.threshold ≤ metricValue stats b) := by
  intro cands
  induction cands with
  | nil =>
    intro held earned xr cr
    simp [awardLoop]
  | cons c cs ih =>
    intro held earned xr cr
    simp only [awardLoop]
    by_cases hq : c.criteria.threshold ≤ metricValue stats c
    · rw [if_pos hq, ih]
      simp [List.filter_cons, hq]
    · rw [if_neg hq, ih]
      simp [List.filter_cons, hq]

/-- The newly earned list returned by `checkAndAwardBadges` is the active,
not-yet-held candidates that qualify. -/
theorem checkAndAward_earned (u : UserLedger) (allBadges : List Badge) :
    (checkAndAwardBadges u allBadges).2
      = (allBadges.filter (fun b => !(u.badges.contains b.id) && b.isActive)).filter
          (fun b => b.criteria.threshold ≤ metricValue u b) := by
  have h := awardLoop_earned u
    (allBadges.filter (fun b => !(u.badges.contains b.id) && b.isActive)) u.badges [] 0 0
  simp only [List.nil_append] at h
  simp only [checkAndAwardBadges]
  split
  · exact h
  · rename_i hlen
    rw [h] at hlen
    have : (allBadges.filter (fun b => !(u.badges.contains b.id) && b.isActive)).filter
        (fun b => b.criteria.threshold ≤ metricValue u b) = [] := by
      cases hfil : (allBadges.filter (fun b => !(u.badges.contains b.id) && b.isActive)).filter
          (fun b => b.criteria.threshold ≤ metricValue u b) with
      | nil => rfl
      | cons x xs =>
        rw [hfil] at hlen
        simp at hlen
    rw [this]
  
/-- `C9`: an active, not-yet-held candidate badge is awarded iff the snapshot
value of the metric named by its criteria reaches its threshold; a badge with
an unrecognized metric gets metric value 0 and, its threshold being at least
1, is never awarded. -/
theorem badge_qualification (u : UserLedger) (allBadges : List Badge) (b : Badge)
    (hmem : b ∈ allBadges) (hact : b.isActive = true) (hnot : b.id ∉ u.badges) :
    (b ∈ (checkAndAwardBadges u allBadges).2 ↔ b.criteria.threshold ≤ metricValue u b) ∧
    (b.criteria.metric ∉ (["streak", "totalXP", "completedTasks", "completedHabits",
        "gamesPlayed", "daysActive"] : List String) →
      metricValue u b = 0 ∧
      (1 ≤ b.criteria.threshold → b ∉ (checkAndAwardBadges u allBadges).2)) := by
  have hiff : b ∈ (checkAndAwardBadges u allBadges).2
      ↔ b.criteria.threshold ≤ metricValue u b := by
    rw [checkAndAward_earned]
    simp [List.mem_filter, hmem, hact, hnot]
  refine ⟨hiff, ?_⟩
  intro hmetr
  simp only [List.mem_cons, List.not_mem_nil, or_false, not_or] at hmetr
  obtain ⟨m1, m2, m3, m4, m5, m6⟩ := hmetr
  have h0 : metricValue u b = 0 := by
    unfold metricValue
    split <;> simp_all
  refine ⟨h0, ?_⟩
  intro hth hin
  rw [hiff] at hin
  rw [h0] at hin
  omega

/-- Witness for `badge_qualification`: with a snapshot holding a 5-day streak,
a streak-3 badge qualifies and an unrecognized badgesCollected metric does
not. -/
theorem badge_qualification_witness :
    ({ id := "streak3", criteria := { metric := "streak", threshold := 3, gameSpecific := none },
       xpReward := 10, coinReward := 5, purchasable := false, price := 0,
       availableUntil := none, isActive := true } : Badge)
      ∈ (checkAndAwardBadges { baseUser with currentStreak := 5 }
          [ { id := "streak3",
              criteria := { metric := "streak", threshold := 3, gameSpecific := none },
              xpReward := 10, coinReward := 5, purchasable := false, price := 0,
              availableUntil := none, isActive := true },
            { id := "mystery",
              criteria := { metric := "badgesCollected", threshold := 1, gameSpecific := none },
              xpReward := 0, coinReward := 0, purchasable := false, price := 0,
              availableUntil := none, isActive := true } ]).2 ∧
    ({ id := "mystery", criteria := { metric := "badgesCollected", threshold := 1, gameSpecific := none },
       xpReward := 0, coinReward := 0, purchasable := false, price := 0,
       availableUntil := none, isActive := true } : Badge)
      ∉ (checkAndAwardBadges { baseUser with currentStreak := 5 }
          [ { id := "streak3",
              criteria := { metric := "streak", threshold := 3, gameSpecific := none },
              xpReward := 10, coinReward := 5, purchasable := false, price := 0,
              availableUntil := none, isActive := true },
            { id := "mystery",
              criteria := { metric := "badgesCollected", threshold := 1, gameSpecific := none },
              xpReward := 0, coinReward := 0, purchasable := false, price := 0,
              availableUntil := none, isActive := true } ]).2 := by
  constructor
  · exact (badge_qualification _ _ _ (by decide) (by decide) (by decide)).1.mpr (by decide)
  · exact ((badge_qualification _ _ _ (by decide) (by decide) (by decide)).2
      (by decide)).2 (by decide)

end HabitB

namespace HabitB

/-! ## Badge-set deduplication -/

/-- `$addToSet` preserves distinctness. -/
theorem addToSet_nodup (xs : List String) (x : String) (h : xs.Nodup) :
    (addToSet xs x).Nodup := by
  unfold addToSet
  split
  · exact h
  · rename_i hnot
    simp [List.nodup_append, h, hnot]

/-- The award loop keeps the held list duplicate-free when the candidates have
distinct ids, none already held. -/
theorem awardLoop_held_nodup (stats : UserLedger) :
    ∀ (cands : List Badge) (held : List String) (earned : List Badge) (xr cr : Nat),
      held.Nodup → (cands.map Badge.id).Nodup → (∀ b2 ∈ cands, b2.id ∉ held) →
      (awardLoop stats cands (held, earned, xr, cr)).1.Nodup := by
  intro cands
  induction cands with
  | nil =>
    intro held earned xr cr hheld _ _
    exact hheld
  | cons c cs ih =>
    intro held earned xr cr hheld hids hdisj
    have hcid : c.id ∉ held := hdisj c (List.mem_cons_self c cs)
    have hids2 : (cs.map Badge.id).Nodup := (List.nodup_cons.mp hids).2
    have hcnotin : c.id ∉ cs.map Badge.id := (List.nodup_cons.mp hids).1
    simp only [awardLoop]
    split
    · apply ih
      · simp [List.nodup_append, hheld, hcid]
      · exact hids2
      · intro b2 hb2
        have h1 : b2.id ∉ held := hdisj b2 (List.mem_cons_of_mem c hb2)
        have h2 : b2.id ≠ c.id := by
          intro heq
          exact hcnotin (heq ▸ List.mem_map_of_mem Badge.id hb2)
        simp [h1, h2]
    · apply ih
      · exact hheld
      · exact hids2
      · intro b2 hb2
        exact hdisj b2 (List.mem_cons_of_mem c hb2)

/-- The badge set stored by `checkAndAwardBadges` stays duplicate-free. -/
theorem checkAndAward_badges_nodup (u : UserLedger) (allBadges : List Badge)
    (hu : u.badges.Nodup) (hids : (allBadges.map Badge.id).Nodup) :
    (checkAndAwardBadges u allBadges).1.badges.Nodup := by
  have hsub : (allBadges.filter (fun b => !(u.badges.contains b.id) && b.isActive)).Sublist
      allBadges := List.filter_sublist _
  have hids2 : ((allBadges.filter
      (fun b => !(u.badges.contains b.id) && b.isActive)).map Badge.id).Nodup :=
    List.Nodup.sublist (hsub.map Badge.id) hids
  have hdisj : ∀ b2 ∈ allBadges.filter (fun b => !(u.badges.contains b.id) && b.isActive),
      b2.id ∉ u.badges := by
    intro b2 hb2
    rw [List.mem_filter] at hb2
    have h := hb2.2
    simp only [Bool.and_eq_true] at h
    have h1 := h.1
    simp at h1
    exact h1
  have hloop := awardLoop_held_nodup u
    (allBadges.filter (fun b => !(u.badges.contains b.id) && b.isActive))
    u.badges [] 0 0 hu hids2 hdisj
  simp only [checkAndAwardBadges]
  split
  · exact hloop
  · exact hu

/-- A successful purchase appends the badge id, which was not yet held. -/
theorem purchase_ok_badges (b : Badge) (u : UserLedger) (now : Nat) (s : UserLedger)
    (hok : purchaseBadge b u now = .ok s) :
    s.badges = u.badges ++ [b.id] ∧ b.id ∉ u.badges := by
  unfold purchaseBadge at hok
  by_cases hc1 : ¬ ((b.isAvailable now && b.purchasable) = true)
  · rw [if_pos hc1] at hok
    exact absurd hok (by simp)
  · rw [if_neg hc1] at hok
    by_cases hc2 : b.id ∈ u.badges
    · rw [if_pos hc2] at hok
      exact absurd hok (by simp)
    · rw [if_neg hc2] at hok
      by_cases hc3 : u.coins < b.price
      · rw [if_pos hc3] at hok
        exact absurd hok (by simp)
      · rw [if_neg hc3] at hok
        injection hok with h
        rw [← h]
        exact ⟨rfl, hc2⟩

/-- A spin either leaves the badge set alone or applies one `$addToSet`. -/
theorem spin_ok_badges (u : UserLedger) (now : Nat) (itemExists : String → Bool)
    (rng : Nat → ℚ) (s : UserLedger) (o : SpinOutcome)
    (hok : spinWheel u now itemExists rng = .ok (s, o)) :
    s.badges = u.badges ∨ ∃ bid, s.badges = addToSet u.badges bid := by
  simp only [spinWheel] at hok
  split at hok
  · exact absurd hok (by simp)
  · split at hok
    · exact absurd hok (by simp)
    · rename_i upd snd heq
      simp only [Except.ok.injEq, Prod.mk.injEq] at hok
      obtain ⟨hs, ho⟩ := hok
      rw [← hs]
      cases hb : upd.badgeAdd with
      | none => left; simp [hb]
      | some bid => right; exact ⟨bid, by simp [hb]⟩

/-- `C2` (amended): all three badge-adding operations preserve the
at-most-once invariant on the badge set, but they do not all treat an
already-held badge as a silent no-op: the spin grant (`$addToSet`) is a no-op
on an already-held badge, qualification awarding never even attempts
already-held badges (they are excluded from the candidates), and
`purchaseBadge` rejects an already-held badge with an already-owned error,
leaving the state unchanged. -/
theorem badge_set_no_duplicates (u : UserLedger) (now : Nat) (itemExists : String → Bool)
    (rng : Nat → ℚ) (allBadges : List Badge) (b : Badge) (hu : u.badges.Nodup) :
    (∀ x, x ∈ u.badges → addToSet u.badges x = u.badges) ∧
    (postSpinState u now itemExists rng).badges.Nodup ∧
    ((allBadges.map Badge.id).Nodup → (checkAndAwardBadges u allBadges).1.badges.Nodup) ∧
    (∀ s, purchaseBadge b u now = .ok s → s.badges.Nodup) ∧
    (b.isAvailable now = true → b.purchasable = true → b.id ∈ u.badges →
      purchaseBadge b u now = .error .alreadyOwned ∧ postPurchaseState b u now = u) := by
  refine ⟨?_, ?_, ?_, ?_, ?_⟩
  · intro x hx
    unfold addToSet
    rw [if_pos hx]
  · unfold postSpinState
    cases hres : spinWheel u now itemExists rng with
    | error e => exact hu
    | ok p =>
      obtain ⟨s, o⟩ := p
      rcases spin_ok_badges u now itemExists rng s o hres with h | ⟨bid, h⟩
      · rw [h]; exact hu
      · rw [h]; exact addToSet_nodup _ _ hu
  · intro hids
    exact checkAndAward_badges_nodup u allBadges hu hids
  · intro s hok
    obtain ⟨hs, hnot⟩ := purchase_ok_badges b u now s hok
    rw [hs]
    simp [List.nodup_append, hu, hnot]
  · intro hava hpur hmem
    have hcond : ¬ ¬ ((b.isAvailable now && b.purchasable) = true) := by
      simp [hava, hpur]
    have he : purchaseBadge b u now = .error .alreadyOwned := by
      unfold purchaseBadge
      rw [if_neg hcond, if_pos hmem]
    refine ⟨he, ?_⟩
    unfold postPurchaseState
    rw [he]

/-- Witness for `badge_set_no_duplicates`, discharging its hypotheses on
concrete inputs: a held badge id is a no-op for `$addToSet`, the spin and
qualification paths keep the set duplicate-free, a successful purchase keeps
it duplicate-free, and purchasing a held badge errors with no state change. -/
theorem badge_set_no_duplicates_witness :
    addToSet (["gold"]) "gold" = ["gold"] ∧
    (postSpinState { baseUser with coins := 10, badges := ["gold"] } 1000
      (fun _ => true) (fun _ => 0)).badges.Nodup ∧
    (checkAndAwardBadges { baseUser with coins := 10, badges := ["gold"] }
      [shopBadge]).1.badges.Nodup ∧
    ((purchaseBadge shopBadge { baseUser with coins := 10 } 0
        = .ok { ({ baseUser with coins := 10 } : UserLedger) with
                coins := 5, badges := ["gold"] }) ∧
      (({ ({ baseUser with coins := 10 } : UserLedger) with
          coins := 5, badges := ["gold"] } : UserLedger)).badges.Nodup) ∧
    purchaseBadge shopBadge { baseUser with coins := 10, badges := ["gold"] } 0
      = .error .alreadyOwned ∧
    postPurchaseState shopBadge { baseUser with coins := 10, badges := ["gold"] } 0
      = { baseUser with coins := 10, badges := ["gold"] } := by
  have h1 := badge_set_no_duplicates { baseUser with coins := 10, badges := ["gold"] }
    1000 (fun _ => true) (fun _ => 0) [shopBadge] shopBadge (by decide)
  have hok : purchaseBadge shopBadge { baseUser with coins := 10 } 0
      = .ok { ({ baseUser with coins := 10 } : UserLedger) with
              coins := 5, badges := ["gold"] } := rfl
  have h2 := badge_set_no_duplicates { baseUser with coins := 10 } 0
    (fun _ => true) (fun _ => 0) [shopBadge] shopBadge (by decide)
  have hlast := h1.2.2.2.2 (by decide) (by decide) (by decide)
  exact ⟨h1.1 "gold" (by decide), h1.2.1, h1.2.2.1 (by decide),
    ⟨hok, h2.2.2.2.1 _ hok⟩, hlast.1, hlast.2⟩

/-- `C2` counterexample: the claim reads every badge-adding operation as
treating an already-held badge as a no-op rather than an error, but
`purchaseBadge` rejects an already-held (purchasable, available) badge with
an error. -/
theorem purchase_already_held_errors :
    purchaseBadge shopBadge { baseUser with coins := 10, badges := ["gold"] } 0
      = .error .alreadyOwned :=
  rfl

end HabitB

namespace HabitB

/-! ## Habit streaks (HabitSchema.methods.complete) -/

/-- Habit state relevant to streak tracking; dates are calendar day numbers
(the source compares `toDateString()` values, i.e. calendar days). -/
structure HabitState where
  completed : Bool
  lastCompleted : Option Int
  completionHistory : List Int
  currentStreak : Nat
  longestStreak : Nat
  deriving Repr, DecidableEq

/-- `HabitSchema.methods.complete`: push the completion (dated now) onto the
history, then set `currentStreak` to `currentStreak + 1` when ANY history
entry is dated yesterday and to 1 otherwise, and raise `longestStreak` to the
maximum. -/
def habitComplete (h : HabitState) (today : Int) : HabitState :=
  let history := h.completionHistory ++ [today]
  let streak2 := if (today - 1) ∈ history then h.currentStreak + 1 else 1
  { completed := true,
    lastCompleted := some today,
    completionHistory := history,
    currentStreak := streak2,
    longestStreak := max streak2 h.longestStreak }

/-- `C6` (code bug): with one completion recorded yesterday, completing the
habit twice on the same calendar day raises `currentStreak` from 1 to 2 and
then again to 3 — the second same-day completion inflates the streak, because
the guard only asks whether some history entry is dated yesterday, never
whether today was already counted. The claim (and spec) require the second
call to leave the streak at 2. -/
theorem habit_same_day_double_completion :
    (habitComplete (⟨false, some 0, [0], 1, 1⟩ : HabitState) 1).currentStreak = 2 ∧
    (habitComplete (habitComplete (⟨false, some 0, [0], 1, 1⟩ : HabitState) 1) 1).currentStreak
      = 3 := by
  decide

/-! ## Game progress (src/controllers/gameController.js) -/

inductive GameAction
  | completedTask (count : Nat)
  | completedHabit (count : Nat)
  | streakUpdate (value : Nat)
  deriving Repr, DecidableEq

/-- The `userUpdates` object accumulated by `saveGameProgress` over the
action list (only the fields the actions can touch). -/
structure GameUpdates where
  completedTasksInc : Option Nat
  completedHabitsInc : Option Nat
  currentStreakSet : Option Nat
  longestStreakSet : Option Nat
  deriving Repr, DecidableEq

/-- The `actions.forEach` loop of `saveGameProgress`. The `streakUpdate`
guard in the source is
`if (action.value > userUpdates.$set[gameStats.longestStreak-key] || 0)`,
which JavaScript parses as
`(action.value > userUpdates.$set[gameStats.longestStreak-key]) || 0`: the
comparison is against the longestStreak entry of the update object being
built (undefined until that branch runs, and a comparison with undefined is
false), not against the stored user. So the branch fires only when a previous
action in the same list already set the entry — which never happens starting
from an empty update object. -/
def buildGameUpdates : List GameAction → GameUpdates → GameUpdates
  | [], upd => upd
  | a :: rest, upd =>
    match a with
    | .completedTask c =>
        buildGameUpdates rest { upd with completedTasksInc := some (if c = 0 then 1 else c) }
    | .completedHabit c =>
        buildGameUpdates rest { upd with completedHabitsInc := some (if c = 0 then 1 else c) }
    | .streakUpdate v =>
        let upd1 := { upd with currentStreakSet := some v }
        let upd2 :=
          if (match upd1.longestStreakSet with
              | some prev => decide (prev < v)
              | none => false) then { upd1 with longestStreakSet := some v }
          else upd1
        buildGameUpdates rest upd2

def VALID_GAME_IDS : List String :=
  ["word-scrambler", "spin-wheel", "habit-challenge", "cosmic-chess", "recovery-game"]

/-- `gameStats.gamesPlayed.<gameId>.playCount` incremented by 1 (created at 1
when absent). -/
def bumpPlayCount : List (String × Nat) → String → List (String × Nat)
  | [], g => [(g, 1)]
  | (k, v) :: rest, g =>
    if k = g then (k, v + 1) :: rest else (k, v) :: bumpPlayCount rest g

/-- The user update of `saveGameProgress`: apply the XP increments, the play
count bump and the accumulated action updates, then run the linear level-up
check `Math.floor(user.xp / 100) + 1 > user.level` on the updated XP. (The
subsequent game-specific badge scan only increments xp/coins for earned
badges and never touches the level or streak fields.) -/
def saveGameProgressUser (u : UserLedger) (gameId : String) (xpEarned : Nat)
    (actions : List GameAction) : UserLedger × Bool :=
  let upd := buildGameUpdates actions ⟨none, none, none, none⟩
  let u1 := { u with
    xp := u.xp + xpEarned,
    totalXP := u.totalXP + xpEarned,
    gamesPlayed := bumpPlayCount u.gamesPlayed gameId,
    completedTasks := u.completedTasks + upd.completedTasksInc.getD 0,
    completedHabits := u.completedHabits + upd.completedHabitsInc.getD 0,
    currentStreak := upd.currentStreakSet.getD u.currentStreak,
    longestStreak := upd.longestStreakSet.getD u.longestStreak }
  let newLevel := linearLevel u1.xp
  if newLevel > u.level then ({ u1 with level := newLevel }, true) else (u1, false)

/-- `saveGameProgress` rejects unknown game ids before touching the user. -/
def saveGameProgress (u : UserLedger) (gameId : String) (xpEarned : Nat)
    (actions : List GameAction) : Option (UserLedger × Bool) :=
  if gameId ∈ VALID_GAME_IDS then some (saveGameProgressUser u gameId xpEarned actions)
  else none

/-- `C7` (code bug): a `streakUpdate` action sets `currentStreak` to the given
value but never updates `longestStreak` (the guard compares against the update
object rather than the stored user, and is always false), so a value above the
stored `longestStreak` leaves the state violating
`longestStreak ≥ currentStreak`. -/
theorem game_streakUpdate_breaks_invariant :
    ((saveGameProgressUser { baseUser with currentStreak := 2, longestStreak := 5 }
        "word-scrambler" 0 [.streakUpdate 10]).1.currentStreak = 10) ∧
    ((saveGameProgressUser { baseUser with currentStreak := 2, longestStreak := 5 }
        "word-scrambler" 0 [.streakUpdate 10]).1.longestStreak = 5) ∧
    ¬ ((saveGameProgressUser { baseUser with currentStreak := 2, longestStreak := 5 }
        "word-scrambler" 0 [.streakUpdate 10]).1.currentStreak
      ≤ (saveGameProgressUser { baseUser with currentStreak := 2, longestStreak := 5 }
        "word-scrambler" 0 [.streakUpdate 10]).1.longestStreak) := by
  decide

/-! ## Habit completion: user-side XP and level (completeHabit controller) -/

/-- The user update of the `completeHabit` controller: `$inc` the XP fields
and the habit counter, then the linear level-up check
`Math.floor(user.xp / 100) + 1 > user.level`; the response surfaces
`levelUp: newLevel` exactly when the check fired, else null. -/
def completeHabitUser (u : UserLedger) (xpEarned : Nat) : UserLedger × Option Nat :=
  let u1 := { u with
    xp := u.xp + xpEarned,
    totalXP := u.totalXP + xpEarned,
    completedHabits := u.completedHabits + 1 }
  let newLevel := linearLevel u1.xp
  if newLevel > u.level then ({ u1 with level := newLevel }, some newLevel) else (u1, none)

end HabitB

namespace HabitB

/-- `C3` counterexample: after a habit completion landing at 400 XP from
level 1, the controller records level 5 (linear `floor(400/100) + 1`), while
the claimed quadratic curve gives `min(floor(sqrt(400/100)) + 1, 100) = 3`. -/
theorem controller_level_not_quadratic :
    (completeHabitUser baseUser 400).1.level = 5 ∧ levelForXP 400 = 3 ∧ (5 : Nat) ≠ 3 := by
  refine ⟨rfl, ?_, by decide⟩
  have h400 : Nat.sqrt (400 / 100) = 2 := sqrt_eval 2 (400 / 100) (by decide) (by decide)
  simp [levelForXP, potentialLevel, h400]

/-- `C3` (amended): in all three XP-adding controller operations (habit
completion, game-progress save, spin), the recorded level and the surfaced
level-up use the uncapped linear formula `floor(newXP/100) + 1`, not the
quadratic curve: the stored level becomes that value exactly when it exceeds
the previous level (and is untouched otherwise), and a level-up is surfaced
iff it exceeds the previous level. -/
theorem levelUp_detected_linear (u : UserLedger) (xpE : Nat) (gameId : String)
    (actions : List GameAction) (now : Nat) (itemExists : String → Bool)
    (rng : Nat → ℚ) :
    ((completeHabitUser u xpE).1.level
        = (if u.level < linearLevel (u.xp + xpE) then linearLevel (u.xp + xpE) else u.level) ∧
      (completeHabitUser u xpE).2
        = (if u.level < linearLevel (u.xp + xpE) then some (linearLevel (u.xp + xpE)) else none)) ∧
    ((saveGameProgressUser u gameId xpE actions).1.level
        = (if u.level < linearLevel (u.xp + xpE) then linearLevel (u.xp + xpE) else u.level) ∧
      (saveGameProgressUser u gameId xpE actions).2
        = decide (u.level < linearLevel (u.xp + xpE))) ∧
    (∀ s o, spinWheel u now itemExists rng = .ok (s, o) →
      s.level = (if u.level < linearLevel s.xp then linearLevel s.xp else u.level) ∧
      o.levelUp = (if u.level < linearLevel s.xp then some (linearLevel s.xp) else none)) := by
  refine ⟨?_, ?_, ?_⟩
  · by_cases h : u.level < linearLevel (u.xp + xpE) <;>
      simp [completeHabitUser, h]
  · by_cases h : u.level < linearLevel (u.xp + xpE) <;>
      simp [saveGameProgressUser, h]
  · intro s o hok
    simp only [spinWheel] at hok
    split at hok
    · exact absurd hok (by simp)
    · split at hok
      · exact absurd hok (by simp)
      · rename_i upd snd heq
        simp only [Except.ok.injEq, Prod.mk.injEq] at hok
        obtain ⟨hs, ho⟩ := hok
        constructor
        · rw [← hs]
        · rw [← ho, ← hs]

/-- Witness for `levelUp_detected_linear`: an ordinary habit completion and
game save from 0 XP landing at 400 XP record level 5 and surface a level-up,
and a concrete successful spin (all draws 0: Common tier, 10 XP) keeps level 1
with no level-up surfaced. -/
theorem levelUp_detected_linear_witness :
    (completeHabitUser baseUser 400).1.level
      = (if baseUser.level < linearLevel (baseUser.xp + 400)
         then linearLevel (baseUser.xp + 400) else baseUser.level) ∧
    (saveGameProgressUser baseUser "word-scrambler" 400 []).2
      = decide (baseUser.level < linearLevel (baseUser.xp + 400)) ∧
    spinWheel baseUser 200000000 (fun _ => true) (fun _ => 0)
      = .ok ({ baseUser with xp := 10, totalXP := 10, coins := 0,
                             lastSpin := some 200000000, spinCount := 1 },
             { tierName := "Common", levelUp := none }) ∧
    ({ baseUser with xp := 10, totalXP := 10, coins := 0,
                     lastSpin := some 200000000, spinCount := 1 } : UserLedger).level
      = (if baseUser.level
           < linearLevel ({ baseUser with xp := 10, totalXP := 10, coins := 0,
                                          lastSpin := some 200000000,
                                          spinCount := 1 } : UserLedger).xp
         then linearLevel ({ baseUser with xp := 10, totalXP := 10, coins := 0,
                                           lastSpin := some 200000000,
                                           spinCount := 1 } : UserLedger).xp
         else baseUser.level) := by
  have h1 := (levelUp_detected_linear baseUser 400 "word-scrambler" [] 200000000
    (fun _ => true) (fun _ => 0)).1.1
  have h2 := (levelUp_detected_linear baseUser 400 "word-scrambler" [] 200000000
    (fun _ => true) (fun _ => 0)).2.1.2
  have hsel : selectRewardTier REWARD_TIERS
      ((fun _ => (0 : ℚ)) 0 * (totalWeight REWARD_TIERS : ℚ))
      = ⟨"Common", 60, [.xp 10 30, .coins 5 15]⟩ := by
    norm_num [selectRewardTier, selectTierGo, REWARD_TIERS, totalWeight]
  have hsr : selectRandomReward ⟨"Common", 60, [.xp 10 30, .coins 5 15]⟩
      (fun _ => (0 : ℚ)) 1 = ([.xp 10 30], 2) := by
    norm_num [selectRandomReward, isPrimary, floorQ, defaultComponent]
  have happ : applyComponents (fun _ => true) (fun _ => (0 : ℚ))
      [RewardComponent.xp 10 30] (⟨none, none, none, none⟩, 2)
      = .ok (⟨some 10, none, none, none⟩, 3) := by
    norm_num [applyComponents, getRandomInRange, floorQ]
  have hok : spinWheel baseUser 200000000 (fun _ => true) (fun _ => 0)
      = .ok ({ baseUser with xp := 10, totalXP := 10, coins := 0,
                             lastSpin := some 200000000, spinCount := 1 },
             { tierName := "Common", levelUp := none }) := by
    simp only [spinWheel, hsel, hsr, happ]
    norm_num [baseUser, COOLDOWN_MS, linearLevel]
  have h3 := ((levelUp_detected_linear baseUser 400 "word-scrambler" [] 200000000
    (fun _ => true) (fun _ => 0)).2.2 _ _ hok).1
  exact ⟨h1, h2, hok, h3⟩

end HabitB
